import Mathlib

/-! Verification of the s3dir repository's specification against a shallow
embedding of its Go source (pkg/storage/storage.go, pkg/storage/multipart.go,
and the s3 HTTP handler).

Modelling conventions:
* Go strings are `List Char`; Go byte slices are `List Nat` (each byte < 256
  where it matters).
* MD5 (crypto/md5, an external library primitive) is an abstract parameter
  `md5 : Bytes → Bytes` of every definition that hashes; likewise the JSON
  serialization of the metadata sidecar (encoding/json) is a parameter
  `em : MultipartUpload → Bytes`.  Nothing in the modelled code inspects
  either output, so all theorems hold for every choice of these parameters.
* `time.Now()` values are passed in as explicit `Int` nanosecond timestamps.
* The filesystem seen by the multipart engine is modelled structurally:
  staging directories `<base>/.multipart/<id>`, part files `part-<N>`,
  metadata sidecars and final objects are kept in separate maps keyed by
  upload id, (upload id, part number), and (bucket, key).  This mirrors
  filepath.Join over the fixed layout; the distinct path families never
  alias (they could only collide for a bucket literally named ".multipart",
  a situation examined separately for claim C6).
* The object-store side (storage.go) is modelled as a directory tree of
  named entries, since ListObjects/DeleteObject traverse real directory
  structure; filepath.Walk's lexical visiting order is represented by
  keeping each directory's child list in that order.
-/

namespace S3dir

/-- Go strings (byte strings, treated as character lists). -/
abbrev GoStr := List Char

/-- Byte sequences (contents of files, hashes). -/
abbrev Bytes := List Nat

/-- Decimal digit character, mirroring the digits produced by Go's fmt "%d". -/
def digitCh (d : Nat) : Char := Char.ofNat (48 + d)

/-- Decimal rendering of a natural number, as fmt's "%d" produces it. -/
def natDec (n : Nat) : List Char :=
  if h : n < 10 then [digitCh n] else natDec (n / 10) ++ [digitCh (n % 10)]
termination_by n
decreasing_by exact Nat.div_lt_self (by omega) (by omega)

/-- Decimal rendering of a Go int via fmt's "%d" (minus sign for negatives). -/
def intDec (i : Int) : List Char :=
  if i < 0 then '-' :: natDec (-i).toNat else natDec i.toNat

/-- Lowercase hex digit, as used by Go's encoding/hex hextable. -/
def hexDigit (d : Nat) : Char :=
  if d < 10 then Char.ofNat (48 + d) else Char.ofNat (87 + d)

/-- Go hex.EncodeToString: two lowercase hex digits per byte. -/
def hexEncode : Bytes → List Char
  | [] => []
  | b :: bs => hexDigit (b / 16) :: hexDigit (b % 16) :: hexEncode bs

/-- Value of a hex digit character, mirroring Go hex.fromHexChar. -/
def hexDigitVal (c : Char) : Option Nat :=
  if '0' ≤ c ∧ c ≤ '9' then some (c.toNat - 48)
  else if 'a' ≤ c ∧ c ≤ 'f' then some (c.toNat - 97 + 10)
  else if 'A' ≤ c ∧ c ≤ 'F' then some (c.toNat - 65 + 10)
  else none

/-- Go hex.DecodeString with the error ignored: decodes full byte pairs up
to the first malformed pair or odd tail, returning the bytes decoded so far
(the callers in multipart.go discard the error). -/
def hexDecode : List Char → Bytes
  | c1 :: c2 :: rest =>
    match hexDigitVal c1, hexDigitVal c2 with
    | some hi, some lo => (hi * 16 + lo) :: hexDecode rest
    | _, _ => []
  | _ => []

/-- Wrap a string in double quotes, as fmt.Sprintf("\"%s\"", s) does. -/
def quoteWrap (s : GoStr) : GoStr := '"' :: (s ++ ['"'])

/-- Go strings.Trim(s, "\""): drop all leading and trailing quote characters. -/
def trimQuotes (s : GoStr) : GoStr :=
  ((s.dropWhile (· == '"')).reverse.dropWhile (· == '"')).reverse

theorem hexDigitVal_hexDigit {d : Nat} (h : d < 16) :
    hexDigitVal (hexDigit d) = some d := by
  interval_cases d <;> rfl

theorem hexDigit_ne_quote {d : Nat} (h : d < 16) : hexDigit d ≠ '"' := by
  interval_cases d <;> decide

theorem hexDecode_hexEncode {bs : Bytes} (h : ∀ b ∈ bs, b < 256) :
    hexDecode (hexEncode bs) = bs := by
  induction bs with
  | nil => rfl
  | cons b rest ih =>
    have hb : b < 256 := h b (by simp)
    have h1 : b / 16 < 16 := by omega
    have h2 : b % 16 < 16 := by omega
    simp only [hexEncode, hexDecode, hexDigitVal_hexDigit h1, hexDigitVal_hexDigit h2]
    rw [ih (fun x hx => h x (by simp [hx]))]
    congr 1
    omega

theorem quote_not_mem_hexEncode {bs : Bytes} (h : ∀ b ∈ bs, b < 256) :
    '"' ∉ hexEncode bs := by
  induction bs with
  | nil => simp [hexEncode]
  | cons b rest ih =>
    have hb : b < 256 := h b (by simp)
    simp only [hexEncode, List.mem_cons, not_or]
    refine ⟨?_, ?_, ih (fun x hx => h x (by simp [hx]))⟩
    · intro hc
      exact hexDigit_ne_quote (d := b / 16) (by omega) hc.symm
    · intro hc
      exact hexDigit_ne_quote (d := b % 16) (by omega) hc.symm

theorem trimQuotes_quoteWrap {s : GoStr} (h : '"' ∉ s) :
    trimQuotes (quoteWrap s) = s := by
  unfold trimQuotes quoteWrap
  rw [List.dropWhile_cons]
  simp only [beq_self_eq_true, if_true]
  cases s with
  | nil => rfl
  | cons c t =>
    have hc : ¬(c == '"') = true := by
      simp only [beq_iff_eq]
      intro hcq
      exact h (hcq ▸ List.mem_cons_self c t)
    rw [List.cons_append, List.dropWhile_cons, if_neg hc, ← List.cons_append]
    have hrev : ((c :: t) ++ ['"']).reverse = '"' :: (c :: t).reverse := by
      simp
    rw [hrev, List.dropWhile_cons]
    simp only [beq_self_eq_true, if_true]
    obtain ⟨d, r, hdr⟩ : ∃ d r, (c :: t).reverse = d :: r := by
      cases hrev2 : (c :: t).reverse with
      | nil =>
        have hlen := congrArg List.length hrev2
        simp at hlen
      | cons d r => exact ⟨d, r, rfl⟩
    have hd : d ∈ c :: t := by
      rw [← List.mem_reverse, hdr]
      exact List.mem_cons_self d r
    have hdq : ¬(d == '"') = true := by
      simp only [beq_iff_eq]
      intro hq
      exact h (hq ▸ hd)
    rw [hdr, List.dropWhile_cons, if_neg hdq, ← hdr]
    simp

theorem digitCh_mem_digits {d : Nat} (h : d < 10) :
    digitCh d ∈ ['0', '1', '2', '3', '4', '5', '6', '7', '8', '9'] := by
  interval_cases d <;> decide

theorem natDec_subset_digits {n : Nat} :
    ∀ c ∈ natDec n, c ∈ ['0', '1', '2', '3', '4', '5', '6', '7', '8', '9'] := by
  induction n using Nat.strong_induction_on with
  | _ n ih =>
    intro c hc
    rw [natDec] at hc
    by_cases h : n < 10
    · rw [dif_pos h] at hc
      simp only [List.mem_singleton] at hc
      exact hc ▸ digitCh_mem_digits h
    · rw [dif_neg h] at hc
      rcases List.mem_append.mp hc with h1 | h2
      · exact ih (n / 10) (Nat.div_lt_self (by omega) (by omega)) c h1
      · simp only [List.mem_singleton] at h2
        exact h2 ▸ digitCh_mem_digits (by omega)

theorem f_not_mem_intDec {i : Int} : 'f' ∉ intDec i := by
  unfold intDec
  intro hc
  by_cases h : i < 0
  · rw [if_pos h] at hc
    rcases List.mem_cons.mp hc with h1 | h2
    · exact absurd h1 (by decide)
    · exact absurd (natDec_subset_digits _ h2) (by decide)
  · rw [if_neg h] at hc
    exact absurd (natDec_subset_digits _ hc) (by decide)

/-- A single staged part, mirroring struct UploadPart in multipart.go.
The on-disk path `<base>/.multipart/<id>/part-<N>` is kept structurally as
the pair of its two variable components (upload id, part number). -/
structure UploadPartRec where
  partNumber : Int
  size : Int
  etag : GoStr
  pathUpload : GoStr
  pathPart : Int
  lastModified : Int
deriving DecidableEq

/-- An in-progress upload, mirroring struct MultipartUpload in multipart.go.
The Go part map (map from int to UploadPart pointer) is modelled as a
function into Option. -/
structure MultipartUpload where
  uploadID : GoStr
  bucket : GoStr
  key : GoStr
  initiated : Int
  lastActivity : Int
  parts : Int → Option UploadPartRec

/-- The multipart manager's registry together with the parts of the
filesystem the engine touches: staging directories (by upload id), staged
part files (by upload id and part number), metadata sidecars (by upload
id), and final objects (by bucket and key). -/
structure MpState where
  uploads : GoStr → Option MultipartUpload
  stagingDirs : GoStr → Bool
  partFiles : GoStr × Int → Option Bytes
  metaFiles : GoStr → Option Bytes
  objects : GoStr × GoStr → Option Bytes

/-- Typed forms of the error values multipart.go creates with fmt.Errorf. -/
inductive MpErr
  | uploadNotFound
  | partNotFound (n : Int)
  | partETagMismatch (n : Int)
  | createPartFile
  | partRecordMissing (n : Int)
  | openPartFile (n : Int)
deriving DecidableEq

/-- The error strings fmt.Errorf builds for each typed error
(partRecordMissing corresponds to a nil-pointer dereference in the Go code,
unreachable in the sequential semantics; it carries a runtime message). -/
def errMessage : MpErr → GoStr
  | .uploadNotFound => "upload not found".toList
  | .partNotFound n => "part ".toList ++ intDec n ++ (" not found").toList
  | .partETagMismatch n => "part ".toList ++ intDec n ++ (" etag mismatch").toList
  | .createPartFile => "failed to create part file".toList
  | .partRecordMissing _ => "runtime error: invalid memory address".toList
  | .openPartFile n => "failed to open part ".toList ++ intDec n

/-- One entry of a completion manifest, mirroring struct CompletePart. -/
structure CompletePart where
  partNumber : Int
  etag : GoStr
deriving DecidableEq

/-- InitiateUpload of multipart.go: register a fresh record with empty part
map, create the staging directory, write the metadata sidecar.  The upload
id (produced by generateUploadID from the clock) and the current time are
parameters; `em` abstracts the JSON marshalling of the sidecar. -/
def initiateUpload (em : MultipartUpload → Bytes) (now : Int) (st : MpState)
    (uploadID bucket key : GoStr) : GoStr × MpState :=
  let upload : MultipartUpload :=
    { uploadID := uploadID, bucket := bucket, key := key, initiated := now,
      lastActivity := now, parts := fun _ => none }
  (uploadID,
    { st with
      uploads := fun id => if id = uploadID then some upload else st.uploads id,
      stagingDirs := fun id => if id = uploadID then true else st.stagingDirs id,
      metaFiles := fun id => if id = uploadID then some (em upload) else st.metaFiles id })

/-- The part record UploadPart of multipart.go builds for payload `data`. -/
def mkPart (md5 : Bytes → Bytes) (now : Int) (uploadID : GoStr) (n : Int)
    (data : Bytes) : UploadPartRec :=
  { partNumber := n, size := (data.length : Int),
    etag := quoteWrap (hexEncode (md5 data)),
    pathUpload := uploadID, pathPart := n, lastModified := now }

/-- UploadPart of multipart.go: look up the upload (NotFound error if
absent), create the part file with os.Create — which fails when the staging
directory does not exist, since UploadPart performs no MkdirAll — stream the
payload while hashing it, record the part, bump last activity, rewrite the
sidecar, and return the quoted-hex MD5 ETag. -/
def uploadPart (md5 : Bytes → Bytes) (em : MultipartUpload → Bytes) (now : Int)
    (st : MpState) (uploadID : GoStr) (partNumber : Int) (data : Bytes) :
    Except MpErr GoStr × MpState :=
  match st.uploads uploadID with
  | none => (.error .uploadNotFound, st)
  | some upload =>
    if st.stagingDirs uploadID then
      let part := mkPart md5 now uploadID partNumber data
      let upload' := { upload with
        parts := fun k => if k = partNumber then some part else upload.parts k,
        lastActivity := now }
      (.ok part.etag,
        { st with
          uploads := fun id => if id = uploadID then some upload' else st.uploads id,
          partFiles := fun k =>
            if k = (uploadID, partNumber) then some data else st.partFiles k,
          metaFiles := fun id =>
            if id = uploadID then some (em upload') else st.metaFiles id })
    else (.error .createPartFile, st)

/-- The validation pass of CompleteUpload: for each manifest entry in order,
the referenced part must exist and its stored ETag must equal the claimed
one; the first violation is returned. -/
def validateParts (parts : Int → Option UploadPartRec) :
    List CompletePart → Option MpErr
  | [] => none
  | cp :: rest =>
    match parts cp.partNumber with
    | none => some (.partNotFound cp.partNumber)
    | some pr =>
      if pr.etag = cp.etag then validateParts parts rest
      else some (.partETagMismatch cp.partNumber)

/-- The sort.Slice call of CompleteUpload: ascending part-number order. -/
def sortManifest (manifest : List CompletePart) : List CompletePart :=
  manifest.mergeSort (fun a b => a.partNumber ≤ b.partNumber)

/-- The assembly loop of CompleteUpload over the sorted manifest: per part,
hex-decode the stored ETag (quotes stripped) into the running hash input and
append the staged part file's bytes to the temp file.  Returns the
accumulated hash input and the assembled object content. -/
def assembleParts (st : MpState) (parts : Int → Option UploadPartRec) :
    List CompletePart → Except MpErr (Bytes × Bytes)
  | [] => .ok ([], [])
  | cp :: rest =>
    match parts cp.partNumber with
    | none => .error (.partRecordMissing cp.partNumber)
    | some pr =>
      match st.partFiles (pr.pathUpload, pr.pathPart) with
      | none => .error (.openPartFile cp.partNumber)
      | some data =>
        match assembleParts st parts rest with
        | .error e => .error e
        | .ok (hin, content) =>
          .ok (hexDecode (trimQuotes pr.etag) ++ hin, data ++ content)

/-- CompleteUpload of multipart.go: look up the upload, validate every
manifest entry before any file work, sort by part number, assemble the
parts into the final object (published by atomic rename), compute the
S3-style multipart ETag (MD5 of the concatenated raw part MD5s, suffixed
with the part count), then drop the registry entry and delete the staging
directory with its files. -/
def completeUpload (md5 : Bytes → Bytes) (st : MpState) (uploadID : GoStr)
    (manifest : List CompletePart) : Except MpErr GoStr × MpState :=
  match st.uploads uploadID with
  | none => (.error .uploadNotFound, st)
  | some upload =>
    match validateParts upload.parts manifest with
    | some e => (.error e, st)
    | none =>
      let sorted := sortManifest manifest
      match assembleParts st upload.parts sorted with
      | .error e => (.error e, st)
      | .ok (hin, content) =>
        let etag := quoteWrap (hexEncode (md5 hin) ++ '-' :: natDec sorted.length)
        (.ok etag,
          { st with
            objects := fun k =>
              if k = (upload.bucket, upload.key) then some content else st.objects k,
            uploads := fun id => if id = uploadID then none else st.uploads id,
            stagingDirs := fun id => if id = uploadID then false else st.stagingDirs id,
            partFiles := fun k => if k.1 = uploadID then none else st.partFiles k,
            metaFiles := fun id => if id = uploadID then none else st.metaFiles id })

/-- The 24-hour staleness threshold of cleanupStaleUploads, in nanoseconds. -/
def staleThreshold : Int := 24 * 3600 * 1000000000

/-- cleanupStaleUploads of multipart.go: every registered upload whose last
activity lies strictly more than 24 hours before `now` is dropped from the
registry and its staging directory (with all its files) is deleted; all
other uploads and all unrelated filesystem entries are untouched. -/
def cleanupStaleUploads (now : Int) (st : MpState) : MpState :=
  let stale := fun id => match st.uploads id with
    | some u => decide (now - u.lastActivity > staleThreshold)
    | none => false
  { st with
    uploads := fun id => if stale id then none else st.uploads id,
    stagingDirs := fun id => if stale id then false else st.stagingDirs id,
    partFiles := fun k => if stale k.1 then none else st.partFiles k,
    metaFiles := fun id => if stale id then none else st.metaFiles id }

/-- Outcome of an HTTP handler at the boundary: a success status, or an
S3 error code with its status. -/
inductive HttpOut
  | ok (status : Nat)
  | err (code : GoStr) (status : Nat)
deriving DecidableEq

/-- Go strings.Contains(s, sub). -/
def containsSub (s sub : GoStr) : Bool := decide (sub <:+: s)

/-- The error translation of the completeMultipartUpload handler: an error
whose message contains "not found" becomes NoSuchUpload (404), otherwise one
whose message contains "part" becomes InvalidPart (400), and anything else
becomes InternalError (500). -/
def completeBoundary (r : Except MpErr GoStr) : HttpOut :=
  match r with
  | .ok _ => .ok 200
  | .error e =>
    if containsSub (errMessage e) ("not found".toList) then
      .err ("NoSuchUpload".toList) 404
    else if containsSub (errMessage e) ("part".toList) then
      .err ("InvalidPart".toList) 400
    else
      .err ("InternalError".toList) 500

/-- Number a list of part payloads with consecutive part numbers from `i`. -/
def numberFrom : Int → List Bytes → List (Int × Bytes)
  | _, [] => []
  | i, b :: bs => (i, b) :: numberFrom (i + 1) bs

/-- The last binding for part number `n` in a list of uploads (later
part uploads overwrite earlier ones for the same number). -/
def lookupLast : List (Int × Bytes) → Int → Option Bytes
  | [], _ => none
  | p :: ps, n =>
    match lookupLast ps n with
    | some b => some b
    | none => if p.1 = n then some p.2 else none

/-- Perform a sequence of part uploads (submission order is the list
order), keeping only the evolving state. -/
def uploadSeq (md5 : Bytes → Bytes) (em : MultipartUpload → Bytes) (now : Int)
    (st : MpState) (uploadID : GoStr) (ps : List (Int × Bytes)) : MpState :=
  ps.foldl (fun s p => (uploadPart md5 em now s uploadID p.1 p.2).2) st

theorem uploadPart_ok (md5 : Bytes → Bytes) (em : MultipartUpload → Bytes)
    (now : Int) (st : MpState) (uploadID : GoStr) (pn : Int) (data : Bytes)
    (u : MultipartUpload) (hu : st.uploads uploadID = some u)
    (hd : st.stagingDirs uploadID = true) :
    uploadPart md5 em now st uploadID pn data =
      (.ok (quoteWrap (hexEncode (md5 data))),
        { st with
          uploads := fun id => if id = uploadID then
            some { u with
              parts := fun k => if k = pn then
                some (mkPart md5 now uploadID pn data) else u.parts k,
              lastActivity := now }
            else st.uploads id,
          partFiles := fun k =>
            if k = (uploadID, pn) then some data else st.partFiles k,
          metaFiles := fun id => if id = uploadID then
            some (em { u with
              parts := fun k => if k = pn then
                some (mkPart md5 now uploadID pn data) else u.parts k,
              lastActivity := now })
            else st.metaFiles id }) := by
  simp only [uploadPart, hu, hd, if_true]
  rfl

theorem mem_keys_of_lookupLast {ps : List (Int × Bytes)} {n : Int} {b : Bytes}
    (h : lookupLast ps n = some b) : n ∈ ps.map Prod.fst := by
  induction ps with
  | nil => simp [lookupLast] at h
  | cons p ps ih =>
    rw [lookupLast] at h
    cases hps : lookupLast ps n with
    | some b2 =>
      exact List.mem_cons_of_mem _ (ih (by rw [hps]; rw [hps] at h; exact h))
    | none =>
      rw [hps] at h
      by_cases hp : p.1 = n
      · exact hp ▸ List.mem_cons_self _ _
      · rw [if_neg hp] at h
        exact absurd h (by simp)

theorem lookupLast_eq_some_of_mem {ps : List (Int × Bytes)} {n : Int} {b : Bytes}
    (hnd : (ps.map Prod.fst).Nodup) (hm : (n, b) ∈ ps) :
    lookupLast ps n = some b := by
  induction ps with
  | nil => simp at hm
  | cons p ps ih =>
    rw [List.map_cons, List.nodup_cons] at hnd
    rw [lookupLast]
    rcases List.mem_cons.mp hm with heq | hmem
    · have hn : p.1 = n := by rw [← heq]
      have hnone : lookupLast ps n = none := by
        cases hl : lookupLast ps n with
        | none => rfl
        | some b2 => exact absurd (hn ▸ mem_keys_of_lookupLast hl) hnd.1
      rw [hnone, if_pos hn, ← heq]
    · rw [ih hnd.2 hmem]

theorem lookupLast_eq_none {ps : List (Int × Bytes)} {n : Int}
    (h : n ∉ ps.map Prod.fst) : lookupLast ps n = none := by
  cases hl : lookupLast ps n with
  | none => rfl
  | some b => exact absurd (mem_keys_of_lookupLast hl) h

theorem uploadSeq_spec (md5 : Bytes → Bytes) (em : MultipartUpload → Bytes)
    (now : Int) (uploadID : GoStr) (ps : List (Int × Bytes)) :
    ∀ (st : MpState) (u : MultipartUpload),
      st.uploads uploadID = some u → st.stagingDirs uploadID = true →
      ∃ u', (uploadSeq md5 em now st uploadID ps).uploads uploadID = some u'
        ∧ u'.bucket = u.bucket ∧ u'.key = u.key
        ∧ (∀ n, u'.parts n =
            match lookupLast ps n with
            | some b => some (mkPart md5 now uploadID n b)
            | none => u.parts n)
        ∧ (∀ n, (uploadSeq md5 em now st uploadID ps).partFiles (uploadID, n) =
            match lookupLast ps n with
            | some b => some b
            | none => st.partFiles (uploadID, n))
        ∧ (uploadSeq md5 em now st uploadID ps).stagingDirs = st.stagingDirs
        ∧ (uploadSeq md5 em now st uploadID ps).objects = st.objects := by
  induction ps with
  | nil =>
    intro st u hu _
    exact ⟨u, hu, rfl, rfl, fun n => by simp [lookupLast],
      fun n => by simp [uploadSeq, lookupLast], rfl, rfl⟩
  | cons p ps ih =>
    intro st u hu hd
    have hstep : uploadSeq md5 em now st uploadID (p :: ps)
        = uploadSeq md5 em now (uploadPart md5 em now st uploadID p.1 p.2).2 uploadID ps := rfl
    rw [hstep, uploadPart_ok md5 em now st uploadID p.1 p.2 u hu hd]
    set u1 : MultipartUpload := { u with
      parts := fun k => if k = p.1 then
        some (mkPart md5 now uploadID p.1 p.2) else u.parts k,
      lastActivity := now } with hu1
    set st1 : MpState := { st with
      uploads := fun id => if id = uploadID then some u1 else st.uploads id,
      partFiles := fun k =>
        if k = (uploadID, p.1) then some p.2 else st.partFiles k,
      metaFiles := fun id => if id = uploadID then
        some (em u1) else st.metaFiles id } with hst1
    obtain ⟨u', hget, hbk, hky, hparts, hfiles, hsd, hob⟩ :=
      ih st1 u1 (by simp [hst1]) hd
    refine ⟨u', hget, by rw [hbk], by rw [hky], ?_, ?_, hsd, hob⟩
    · intro n
      rw [hparts n, lookupLast]
      cases lookupLast ps n with
      | some b => rfl
      | none =>
        show u1.parts n = _
        by_cases hp : p.1 = n
        · rw [if_pos hp]
          have : n = p.1 := hp.symm
          simp [hu1, this]
        · rw [if_neg hp]
          simp only [hu1]
          have : ¬ n = p.1 := fun hcon => hp hcon.symm
          simp [this]
    · intro n
      rw [hfiles n, lookupLast]
      cases lookupLast ps n with
      | some b => rfl
      | none =>
        show st1.partFiles (uploadID, n) = _
        by_cases hp : p.1 = n
        · rw [if_pos hp]
          simp [hst1, hp]
        · rw [if_neg hp]
          have : ¬ (uploadID, n) = (uploadID, p.1) := by
            intro hcon
            exact hp (congrArg Prod.snd hcon).symm
          simp [hst1, this]

theorem validateParts_eq_none (parts : Int → Option UploadPartRec)
    (manifest : List CompletePart)
    (h : ∀ cp ∈ manifest, ∃ pr, parts cp.partNumber = some pr ∧ pr.etag = cp.etag) :
    validateParts parts manifest = none := by
  induction manifest with
  | nil => rfl
  | cons cp rest ih =>
    obtain ⟨pr, hpr, hetag⟩ := h cp (List.mem_cons_self _ _)
    rw [validateParts, hpr]
    simp only [if_pos hetag]
    exact ih (fun x hx => h x (List.mem_cons_of_mem _ hx))

theorem validateParts_err_shape (parts : Int → Option UploadPartRec) :
    ∀ (manifest : List CompletePart) (e : MpErr),
      validateParts parts manifest = some e →
      (∃ n, e = .partNotFound n) ∨ (∃ n, e = .partETagMismatch n) := by
  intro manifest
  induction manifest with
  | nil => intro e h; simp [validateParts] at h
  | cons cp rest ih =>
    intro e h
    rw [validateParts] at h
    cases hpr : parts cp.partNumber with
    | none =>
      simp only [hpr] at h
      exact Or.inl ⟨cp.partNumber, (Option.some_inj.mp h).symm⟩
    | some pr =>
      simp only [hpr] at h
      by_cases he : pr.etag = cp.etag
      · rw [if_pos he] at h
        exact ih e h
      · rw [if_neg he] at h
        exact Or.inr ⟨cp.partNumber, (Option.some_inj.mp h).symm⟩

theorem sortManifest_perm (m : List CompletePart) : (sortManifest m).Perm m :=
  List.mergeSort_perm m _

theorem sortManifest_pairwise (m : List CompletePart) :
    (sortManifest m).Pairwise (fun a b => a.partNumber ≤ b.partNumber) := by
  have h := @List.sorted_mergeSort CompletePart
    (fun a b => decide (a.partNumber ≤ b.partNumber))
    (fun a b c hab hbc => by
      simp only [decide_eq_true_eq] at *
      exact le_trans hab hbc)
    (fun a b => by
      simp only [Bool.or_eq_true, decide_eq_true_eq]
      exact Int.le_total _ _)
    m
  exact h.imp (fun hab => by simpa using hab)

theorem list_eq_of_proj {α β : Type} (f : α → β) :
    ∀ (l₁ l₂ : List α), l₁.map f = l₂.map f → (l₂.map f).Nodup →
      (∀ x ∈ l₁, x ∈ l₂) → l₁ = l₂ := by
  intro l₁
  induction l₁ with
  | nil =>
    intro l₂ h _ _
    cases l₂ with
    | nil => rfl
    | cons b bs => simp at h
  | cons a as ih =>
    intro l₂ hmap hnodup hsub
    cases l₂ with
    | nil => simp at hmap
    | cons b bs =>
      simp only [List.map_cons, List.cons.injEq] at hmap
      obtain ⟨hfab, hmap2⟩ := hmap
      rw [List.map_cons, List.nodup_cons] at hnodup
      have hab : a = b := by
        rcases List.mem_cons.mp (hsub a (List.mem_cons_self _ _)) with h1 | h2
        · exact h1
        · exfalso
          exact hnodup.1 (hfab ▸ List.mem_map_of_mem f h2)
      subst hab
      congr 1
      refine ih bs hmap2 hnodup.2 ?_
      intro x hx
      rcases List.mem_cons.mp (hsub x (List.mem_cons_of_mem _ hx)) with h1 | h2
      · exfalso
        apply hnodup.1
        rw [← h1, ← hmap2]
        exact List.mem_map_of_mem f hx
      · exact h2

theorem numberFrom_length (bs : List Bytes) : ∀ i, (numberFrom i bs).length = bs.length := by
  induction bs with
  | nil => intro i; rfl
  | cons b rest ih => intro i; simp [numberFrom, ih]

theorem numberFrom_key_bounds (bs : List Bytes) :
    ∀ i n b, (n, b) ∈ numberFrom i bs → i ≤ n ∧ n < i + bs.length := by
  induction bs with
  | nil => intro i n b h; simp [numberFrom] at h
  | cons x rest ih =>
    intro i n b h
    rw [numberFrom] at h
    rcases List.mem_cons.mp h with h1 | h2
    · have h1a : n = i := congrArg Prod.fst h1
      simp only [List.length_cons]
      omega
    · have := ih (i + 1) n b h2
      simp only [List.length_cons]
      omega

theorem numberFrom_keys_pairwise (bs : List Bytes) :
    ∀ i, ((numberFrom i bs).map Prod.fst).Pairwise (· < ·) := by
  induction bs with
  | nil => intro i; simp [numberFrom]
  | cons x rest ih =>
    intro i
    rw [numberFrom, List.map_cons, List.pairwise_cons]
    refine ⟨?_, ih (i + 1)⟩
    intro y hy
    obtain ⟨⟨n, b⟩, hmem, rfl⟩ := List.mem_map.mp hy
    have := numberFrom_key_bounds rest (i + 1) n b hmem
    omega

theorem numberFrom_keys_nodup (bs : List Bytes) (i : Int) :
    ((numberFrom i bs).map Prod.fst).Nodup :=
  (numberFrom_keys_pairwise bs i).imp (fun h => ne_of_lt h)

theorem assembleParts_canonical (md5 : Bytes → Bytes) (now : Int)
    (uploadID : GoStr) (st : MpState) (parts : Int → Option UploadPartRec)
    (bs : List Bytes) :
    ∀ i, (∀ n b, (n, b) ∈ numberFrom i bs →
        parts n = some (mkPart md5 now uploadID n b)
        ∧ st.partFiles (uploadID, n) = some b) →
      assembleParts st parts ((numberFrom i bs).map
          (fun p => ⟨p.1, quoteWrap (hexEncode (md5 p.2))⟩)) =
        .ok ((bs.map
            (fun b => hexDecode (trimQuotes (quoteWrap (hexEncode (md5 b)))))).flatten,
          bs.flatten) := by
  induction bs with
  | nil => intro i _; rfl
  | cons b rest ih =>
    intro i h
    obtain ⟨hpr, hfile⟩ := h i b (by rw [numberFrom]; exact List.mem_cons_self _ _)
    rw [numberFrom, List.map_cons]
    simp only [assembleParts, hpr, mkPart, hfile]
    rw [ih (i + 1) (fun n x hmem => h n x (by rw [numberFrom]; exact List.mem_cons_of_mem _ hmem))]
    simp

theorem map_pn_canonical (f : Bytes → GoStr) (bs : List Bytes) (i : Int) :
    (((numberFrom i bs).map (fun p => (⟨p.1, f p.2⟩ : CompletePart))).map
        (fun cp => cp.partNumber)) = (numberFrom i bs).map Prod.fst := by
  rw [List.map_map]
  exact List.map_congr_left (fun a _ => rfl)

theorem sortManifest_eq_of_perm_canonical {f : Bytes → GoStr} {bs : List Bytes}
    {i : Int} {manifest : List CompletePart}
    (hman : manifest.Perm ((numberFrom i bs).map (fun p => (⟨p.1, f p.2⟩ : CompletePart)))) :
    sortManifest manifest = (numberFrom i bs).map (fun p => (⟨p.1, f p.2⟩ : CompletePart)) := by
  have hperm : (sortManifest manifest).Perm
      ((numberFrom i bs).map (fun p => (⟨p.1, f p.2⟩ : CompletePart))) :=
    (sortManifest_perm manifest).trans hman
  have hndK : ((numberFrom i bs).map Prod.fst).Nodup := numberFrom_keys_nodup bs i
  refine list_eq_of_proj (fun cp => cp.partNumber) _ _ ?_ ?_ ?_
  · have hpermK := hperm.map (fun cp => cp.partNumber)
    have hsortedL : List.Sorted (· ≤ ·)
        ((sortManifest manifest).map (fun cp => cp.partNumber)) :=
      List.pairwise_map.mpr (sortManifest_pairwise manifest)
    have hsortedR : List.Sorted (· ≤ ·)
        ((((numberFrom i bs).map (fun p => (⟨p.1, f p.2⟩ : CompletePart))).map
          (fun cp => cp.partNumber))) := by
      rw [map_pn_canonical]
      exact (numberFrom_keys_pairwise bs i).imp (fun h => le_of_lt h)
    exact List.eq_of_perm_of_sorted hpermK hsortedL hsortedR
  · rw [map_pn_canonical]
    exact hndK
  · intro x hx
    exact hperm.mem_iff.mp hx

theorem completePipeline_spec (md5 : Bytes → Bytes) (em : MultipartUpload → Bytes)
    (now1 now2 : Int) (st0 : MpState) (uploadID bucket key : GoStr)
    (bs : List Bytes) (ups : List (Int × Bytes)) (manifest : List CompletePart)
    (hups : ups.Perm (numberFrom 1 bs))
    (hman : manifest.Perm ((numberFrom 1 bs).map
      (fun p => (⟨p.1, quoteWrap (hexEncode (md5 p.2))⟩ : CompletePart)))) :
    (completeUpload md5
        (uploadSeq md5 em now2 (initiateUpload em now1 st0 uploadID bucket key).2 uploadID ups)
        uploadID manifest).1
      = .ok (quoteWrap (hexEncode (md5 ((bs.map
          (fun b => hexDecode (trimQuotes (quoteWrap (hexEncode (md5 b)))))).flatten))
          ++ '-' :: natDec bs.length))
    ∧ (completeUpload md5
        (uploadSeq md5 em now2 (initiateUpload em now1 st0 uploadID bucket key).2 uploadID ups)
        uploadID manifest).2.objects (bucket, key) = some bs.flatten := by
  set st1 := (initiateUpload em now1 st0 uploadID bucket key).2 with hst1
  set st2 := uploadSeq md5 em now2 st1 uploadID ups with hst2
  have hu0 : st1.uploads uploadID = some
      { uploadID := uploadID, bucket := bucket, key := key, initiated := now1,
        lastActivity := now1, parts := fun _ => none } := by
    simp [hst1, initiateUpload]
  have hd0 : st1.stagingDirs uploadID = true := by
    simp [hst1, initiateUpload]
  obtain ⟨u', hget, hbk, hky, hparts, hfiles, _, _⟩ :=
    uploadSeq_spec md5 em now2 uploadID ups st1 _ hu0 hd0
  rw [← hst2] at hget
  have hndC : ((numberFrom 1 bs).map Prod.fst).Nodup := numberFrom_keys_nodup bs 1
  have hnd : (ups.map Prod.fst).Nodup := ((hups.map Prod.fst).nodup_iff).mpr hndC
  have hassemSpec : ∀ n b, (n, b) ∈ numberFrom 1 bs →
      u'.parts n = some (mkPart md5 now2 uploadID n b)
        ∧ st2.partFiles (uploadID, n) = some b := by
    intro n b hmem
    have hlk : lookupLast ups n = some b :=
      lookupLast_eq_some_of_mem hnd (hups.mem_iff.mpr hmem)
    constructor
    · rw [hparts n, hlk]
    · rw [hfiles n, hlk]
  have hval : validateParts u'.parts manifest = none := by
    refine validateParts_eq_none u'.parts manifest ?_
    intro cp hcp
    obtain ⟨⟨n, b⟩, hmemNF, rfl⟩ := List.mem_map.mp (hman.mem_iff.mp hcp)
    exact ⟨mkPart md5 now2 uploadID n b, (hassemSpec n b hmemNF).1, rfl⟩
  have hsorteq :=
    sortManifest_eq_of_perm_canonical (f := fun b => quoteWrap (hexEncode (md5 b))) hman
  have hassem : assembleParts st2 u'.parts ((numberFrom 1 bs).map
      (fun p => (⟨p.1, quoteWrap (hexEncode (md5 p.2))⟩ : CompletePart))) =
      .ok ((bs.map
        (fun b => hexDecode (trimQuotes (quoteWrap (hexEncode (md5 b)))))).flatten,
        bs.flatten) := by
    refine assembleParts_canonical md5 now2 uploadID st2 u'.parts bs 1 ?_
    intro n b hmem
    exact hassemSpec n b hmem
  have hlen : ((numberFrom 1 bs).map
      (fun p => (⟨p.1, quoteWrap (hexEncode (md5 p.2))⟩ : CompletePart))).length
      = bs.length := by
    rw [List.length_map, numberFrom_length]
  constructor
  · simp only [completeUpload, hget, hval, hsorteq, hassem, hlen]
  · simp only [completeUpload, hget, hval, hsorteq, hassem, hlen]
    simp [hbk, hky]

/-- Claim C1: for every ordered list of byte-sequences B1..Bn (1 ≤ n ≤ 10000),
after initiating a multipart upload, uploading each Bi as part number i in any
submission order, and completing with a manifest holding all n
(part-number, etag) entries in any order, the final object stored at
(bucket, key) is exactly the concatenation B1 ++ ... ++ Bn. -/
theorem multipart_complete_identity (md5 : Bytes → Bytes)
    (em : MultipartUpload → Bytes) (now1 now2 : Int) (st0 : MpState)
    (uploadID bucket key : GoStr) (bs : List Bytes) (n : Nat)
    (hn : n = bs.length) (hn1 : 1 ≤ n) (hn2 : n ≤ 10000)
    (ups : List (Int × Bytes)) (manifest : List CompletePart)
    (hups : ups.Perm (numberFrom 1 bs))
    (hman : manifest.Perm ((numberFrom 1 bs).map
      (fun p => (⟨p.1, quoteWrap (hexEncode (md5 p.2))⟩ : CompletePart)))) :
    (completeUpload md5
        (uploadSeq md5 em now2 (initiateUpload em now1 st0 uploadID bucket key).2 uploadID ups)
        uploadID manifest).2.objects (bucket, key) = some bs.flatten :=
  (completePipeline_spec md5 em now1 now2 st0 uploadID bucket key bs ups manifest
    hups hman).2

theorem multipart_complete_identity_witness :
    (completeUpload (fun _ => [0]) (uploadSeq (fun _ => [0]) (fun _ => []) 5
        (initiateUpload (fun _ => []) 4
          { uploads := fun _ => none, stagingDirs := fun _ => false,
            partFiles := fun _ => none, metaFiles := fun _ => none,
            objects := fun _ => none }
          ("u1".toList) ("b".toList) ("k".toList)).2
        ("u1".toList) [(2, [7, 8]), (1, [5, 6])])
      ("u1".toList)
      [⟨2, quoteWrap (hexEncode [0])⟩, ⟨1, quoteWrap (hexEncode [0])⟩]).2.objects
      (("b".toList), ("k".toList)) = some [5, 6, 7, 8] :=
  multipart_complete_identity (fun _ => [0]) (fun _ => []) 4 5 _
    ("u1".toList) ("b".toList) ("k".toList) [[5, 6], [7, 8]] 2
    rfl (by omega) (by omega) _ _ (by decide) (by decide)

/-- Claim C2: for every completed multipart upload built by uploading parts
B1..Bn (whose stored part MD5s are md5 B1 .. md5 Bn, in ascending part-number
order), the ETag complete returns is the quoted hex of the MD5 of the
concatenation of those raw part MD5s, suffixed with a dash and the part
count n. -/
theorem multipart_complete_etag (md5 : Bytes → Bytes)
    (em : MultipartUpload → Bytes) (now1 now2 : Int) (st0 : MpState)
    (uploadID bucket key : GoStr) (bs : List Bytes)
    (ups : List (Int × Bytes)) (manifest : List CompletePart)
    (hb : ∀ l, ∀ x ∈ md5 l, x < 256)
    (hups : ups.Perm (numberFrom 1 bs))
    (hman : manifest.Perm ((numberFrom 1 bs).map
      (fun p => (⟨p.1, quoteWrap (hexEncode (md5 p.2))⟩ : CompletePart)))) :
    (completeUpload md5
        (uploadSeq md5 em now2 (initiateUpload em now1 st0 uploadID bucket key).2 uploadID ups)
        uploadID manifest).1
      = .ok (quoteWrap (hexEncode (md5 ((bs.map md5).flatten))
          ++ '-' :: natDec bs.length)) := by
  have h := (completePipeline_spec md5 em now1 now2 st0 uploadID bucket key bs ups
    manifest hups hman).1
  have hsimp : ∀ b : Bytes,
      hexDecode (trimQuotes (quoteWrap (hexEncode (md5 b)))) = md5 b := by
    intro b
    rw [trimQuotes_quoteWrap (quote_not_mem_hexEncode (hb b)),
      hexDecode_hexEncode (hb b)]
  rw [h]
  simp only [hsimp]

theorem multipart_complete_etag_witness :
    (completeUpload (fun l => [l.length % 256])
        (uploadSeq (fun l => [l.length % 256]) (fun _ => []) 5
          (initiateUpload (fun _ => []) 4
            { uploads := fun _ => none, stagingDirs := fun _ => false,
              partFiles := fun _ => none, metaFiles := fun _ => none,
              objects := fun _ => none }
            ("u1".toList) ("b".toList) ("k".toList)).2
          ("u1".toList) [(2, [7]), (1, [5, 6])])
        ("u1".toList)
        [⟨2, quoteWrap (hexEncode [1])⟩, ⟨1, quoteWrap (hexEncode [2])⟩]).1
      = .ok (quoteWrap (hexEncode ((fun l => [l.length % 256]) [2, 1])
          ++ '-' :: natDec 2)) :=
  multipart_complete_etag (fun l => [l.length % 256]) (fun _ => []) 4 5 _
    ("u1".toList) ("b".toList) ("k".toList) [[5, 6], [7]] _ _
    (by intro l x hx; simp only [List.mem_singleton] at hx; omega)
    (by decide) (by decide)

theorem containsSub_notFound_partNotFound (n : Int) :
    containsSub (errMessage (.partNotFound n)) ("not found".toList) = true := by
  unfold containsSub
  rw [decide_eq_true_eq]
  show ("not found".toList) <:+: ("part ".toList ++ intDec n ++ (" not found").toList)
  have h0 : (" not found").toList = ' ' :: ("not found".toList) := rfl
  rw [h0, List.append_cons]
  exact List.IsSuffix.isInfix (List.suffix_append _ _)

theorem containsSub_notFound_mismatch (n : Int) :
    containsSub (errMessage (.partETagMismatch n)) ("not found".toList) = false := by
  unfold containsSub
  rw [decide_eq_false_iff_not]
  intro hinf
  have hf : 'f' ∈ errMessage (.partETagMismatch n) := hinf.subset (by decide)
  rw [errMessage] at hf
  rcases List.mem_append.mp hf with h1 | h2
  · rcases List.mem_append.mp h1 with h3 | h4
    · exact absurd h3 (by decide)
    · exact f_not_mem_intDec h4
  · exact absurd h2 (by decide)

theorem containsSub_part_mismatch (n : Int) :
    containsSub (errMessage (.partETagMismatch n)) ("part".toList) = true := by
  unfold containsSub
  rw [decide_eq_true_eq]
  show ("part".toList) <:+: ("part ".toList ++ intDec n ++ (" etag mismatch").toList)
  have h0 : ("part ").toList = ("part".toList) ++ [' '] := rfl
  rw [h0, List.append_assoc, List.append_assoc]
  exact List.IsPrefix.isInfix (List.prefix_append _ _)

/-- Claim C3 (amended): complete validates every manifest entry before any
file I/O; when an entry refers to an absent part or carries a mismatched
ETag, the call returns that part-error and the whole state — final object,
staged part files, upload record — is returned unchanged.  At the boundary,
an ETag mismatch maps to InvalidPart (400), but an absent part maps to
NoSuchUpload (404), because its message "part N not found" matches the
handler's "not found" substring check first. -/
theorem complete_validation_failure (md5 : Bytes → Bytes) (st : MpState)
    (uploadID : GoStr) (manifest : List CompletePart) (upload : MultipartUpload)
    (e : MpErr)
    (hu : st.uploads uploadID = some upload)
    (he : validateParts upload.parts manifest = some e) :
    completeUpload md5 st uploadID manifest = (.error e, st)
    ∧ ((∃ n, e = .partNotFound n) ∨ (∃ n, e = .partETagMismatch n))
    ∧ (∀ n, e = .partNotFound n →
        completeBoundary (.error e) = .err ("NoSuchUpload".toList) 404)
    ∧ (∀ n, e = .partETagMismatch n →
        completeBoundary (.error e) = .err ("InvalidPart".toList) 400) := by
  refine ⟨?_, validateParts_err_shape upload.parts manifest e he, ?_, ?_⟩
  · simp only [completeUpload, hu, he]
  · intro n hn
    subst hn
    simp only [completeBoundary, containsSub_notFound_partNotFound, if_true]
  · intro n hn
    subst hn
    simp only [completeBoundary, containsSub_notFound_mismatch,
      containsSub_part_mismatch, Bool.false_eq_true, if_false, if_true]

/-- A state with one registered upload that has no staged parts, used as a
concrete input for claims about complete's validation and upload_part. -/
def uploadNoParts : MultipartUpload :=
  { uploadID := "u".toList, bucket := "b".toList, key := "k".toList,
    initiated := 0, lastActivity := 0, parts := fun _ => none }

def stOneUpload : MpState :=
  { uploads := fun id => if id = ("u".toList) then some uploadNoParts else none,
    stagingDirs := fun id => id = ("u".toList),
    partFiles := fun _ => none, metaFiles := fun _ => none,
    objects := fun _ => none }

theorem complete_missing_part_counterexample :
    completeBoundary (completeUpload (fun _ => []) stOneUpload ("u".toList)
        [⟨1, ("x".toList)⟩]).1
      = .err ("NoSuchUpload".toList) 404
    ∧ HttpOut.err ("NoSuchUpload".toList) 404 ≠ HttpOut.err ("InvalidPart".toList) 400 := by
  have h1 : (completeUpload (fun _ => []) stOneUpload ("u".toList)
      [⟨1, ("x".toList)⟩]).1 = .error (.partNotFound 1) := rfl
  rw [h1]
  constructor
  · simp only [completeBoundary, containsSub_notFound_partNotFound, if_true]
  · decide

theorem complete_validation_failure_witness :
    completeUpload (fun _ => []) stOneUpload ("u".toList) [⟨1, ("x".toList)⟩]
      = (.error (.partNotFound 1), stOneUpload) :=
  (complete_validation_failure (fun _ => []) stOneUpload ("u".toList)
    [⟨1, ("x".toList)⟩] uploadNoParts (.partNotFound 1) rfl rfl).1

/-- Claim C7 (amended): upload_part fails NotFound exactly when the upload id
is absent from the registry; but for a registered upload whose staging
directory is missing on disk it does not succeed — UploadPart performs no
defensive MkdirAll, so os.Create of the part file fails and the state is
unchanged. -/
theorem uploadPart_registry_behaviour (md5 : Bytes → Bytes)
    (em : MultipartUpload → Bytes) (now : Int) (st : MpState)
    (uploadID : GoStr) (pn : Int) (data : Bytes) :
    ((uploadPart md5 em now st uploadID pn data).1 = .error .uploadNotFound
      ↔ st.uploads uploadID = none)
    ∧ (∀ u, st.uploads uploadID = some u → st.stagingDirs uploadID = false →
        uploadPart md5 em now st uploadID pn data = (.error .createPartFile, st)) := by
  constructor
  · constructor
    · intro h
      cases hu : st.uploads uploadID with
      | none => rfl
      | some u =>
        by_cases hd : st.stagingDirs uploadID
        · rw [uploadPart_ok md5 em now st uploadID pn data u hu hd] at h
          simp at h
        · simp only [uploadPart, hu] at h
          rw [if_neg hd] at h
          simp at h
    · intro h
      simp only [uploadPart, h]
  · intro u hu hd
    simp only [uploadPart, hu]
    rw [if_neg (by simp [hd])]

/-- A registered upload whose staging directory is absent on disk. -/
def stNoStaging : MpState :=
  { uploads := fun id => if id = ("u".toList) then some uploadNoParts else none,
    stagingDirs := fun _ => false,
    partFiles := fun _ => none, metaFiles := fun _ => none,
    objects := fun _ => none }

theorem uploadPart_no_defensive_mkdir_counterexample :
    (stNoStaging.uploads ("u".toList)).isSome = true
    ∧ (uploadPart (fun _ => []) (fun _ => []) 0 stNoStaging ("u".toList) 1 [1]).1
        = .error .createPartFile := by
  constructor
  · rfl
  · rfl

theorem uploadPart_registry_behaviour_witness :
    uploadPart (fun _ => []) (fun _ => []) 0 stNoStaging ("u".toList) 1 [1]
      = (.error .createPartFile, stNoStaging) :=
  (uploadPart_registry_behaviour (fun _ => []) (fun _ => []) 0 stNoStaging
    ("u".toList) 1 [1]).2 uploadNoParts rfl rfl

/-- Claim C8: for every byte sequence streamed to upload_part for a
registered upload (with its staging directory present), the returned ETag is
the double-quoted lowercase hex of MD5(data), and the very same ETag is
recorded in the part record upserted for that part number. -/
theorem uploadPart_etag_spec (md5 : Bytes → Bytes) (em : MultipartUpload → Bytes)
    (now : Int) (st : MpState) (uploadID : GoStr) (pn : Int) (data : Bytes)
    (u : MultipartUpload) (hu : st.uploads uploadID = some u)
    (hd : st.stagingDirs uploadID = true) :
    ∃ st' u',
      uploadPart md5 em now st uploadID pn data
        = (.ok (quoteWrap (hexEncode (md5 data))), st')
      ∧ st'.uploads uploadID = some u'
      ∧ u'.parts pn = some (mkPart md5 now uploadID pn data)
      ∧ (mkPart md5 now uploadID pn data).etag = quoteWrap (hexEncode (md5 data)) := by
  refine ⟨_, { u with
      parts := fun k => if k = pn then
        some (mkPart md5 now uploadID pn data) else u.parts k,
      lastActivity := now },
    uploadPart_ok md5 em now st uploadID pn data u hu hd, by simp, by simp, rfl⟩

theorem uploadPart_etag_spec_witness :
    ∃ st' u',
      uploadPart (fun _ => [3]) (fun _ => []) 0 stOneUpload ("u".toList) 1 [9]
        = (.ok (quoteWrap (hexEncode [3])), st')
      ∧ st'.uploads ("u".toList) = some u'
      ∧ u'.parts 1 = some (mkPart (fun _ => [3]) 0 ("u".toList) 1 [9])
      ∧ (mkPart (fun _ => [3]) 0 ("u".toList) 1 [9]).etag = quoteWrap (hexEncode [3]) :=
  uploadPart_etag_spec (fun _ => [3]) (fun _ => []) 0 stOneUpload ("u".toList) 1 [9]
    uploadNoParts rfl rfl

/-- Claim C9: when the stale scan runs at time now, every registered upload
whose last activity lies strictly more than 24 hours in the past is removed
from the registry and its staging directory, part files and sidecar are
deleted; every upload with activity within the last 24 hours keeps its
registry record untouched. -/
theorem cleanupStale_spec (now : Int) (st : MpState) (uploadID : GoStr)
    (u : MultipartUpload) (hu : st.uploads uploadID = some u) :
    (now - u.lastActivity > staleThreshold →
      (cleanupStaleUploads now st).uploads uploadID = none
      ∧ (cleanupStaleUploads now st).stagingDirs uploadID = false
      ∧ (∀ pn, (cleanupStaleUploads now st).partFiles (uploadID, pn) = none)
      ∧ (cleanupStaleUploads now st).metaFiles uploadID = none)
    ∧ (now - u.lastActivity ≤ staleThreshold →
      (cleanupStaleUploads now st).uploads uploadID = some u) := by
  constructor
  · intro h
    have hs : (match st.uploads uploadID with
        | some v => decide (now - v.lastActivity > staleThreshold)
        | none => false) = true := by
      rw [hu]
      simpa using h
    refine ⟨?_, ?_, ?_, ?_⟩ <;> simp [cleanupStaleUploads, hs]
  · intro h
    have hs : (match st.uploads uploadID with
        | some v => decide (now - v.lastActivity > staleThreshold)
        | none => false) = false := by
      rw [hu]
      simp only [decide_eq_false_iff_not]
      omega
    simp only [cleanupStaleUploads, hs]
    simp [hu]

theorem cleanupStale_spec_witness :
    ((cleanupStaleUploads 90000000000000 stOneUpload).uploads ("u".toList) = none
      ∧ (cleanupStaleUploads 90000000000000 stOneUpload).stagingDirs ("u".toList) = false
      ∧ (∀ pn, (cleanupStaleUploads 90000000000000 stOneUpload).partFiles
          (("u".toList), pn) = none)
      ∧ (cleanupStaleUploads 90000000000000 stOneUpload).metaFiles ("u".toList) = none) :=
  (cleanupStale_spec 90000000000000 stOneUpload ("u".toList) uploadNoParts rfl).1
    (by decide)

/-- A node of the directory tree under the base directory: a regular file
with its bytes, or a directory with its named children.  Each directory's
child list is kept in the lexical order in which os.ReadDir and
filepath.Walk visit entries. -/
inductive FsNode
  | file (content : Bytes)
  | dir (children : List (GoStr × FsNode))

def FsNode.isDir : FsNode → Bool
  | .dir _ => true
  | .file _ => false

/-- The S3 key of a child entry: relative path with forward slashes. -/
def childKey (parentKey name : GoStr) : GoStr :=
  if parentKey = [] then name else parentKey ++ '/' :: name

/-- Go strings.TrimPrefix. -/
def trimPfx (s pfx : GoStr) : GoStr :=
  if pfx.isPrefixOf s then s.drop pfx.length else s

/-- Go strings.Index: byte index of the first occurrence of sub in s
(none for not found). -/
def idxOfSub (sub : GoStr) : GoStr → Option Nat
  | [] => if sub.isPrefixOf [] then some 0 else none
  | c :: t =>
    if sub.isPrefixOf (c :: t) then some 0 else (idxOfSub sub t).map (· + 1)

/-- The three outcomes the ListObjects walk callback can return: nil,
filepath.SkipDir, filepath.SkipAll. -/
inductive WalkRes | next | skipDir | skipAll
deriving DecidableEq

/-- The accumulator of ListObjects: object keys and common prefixes, both in
emission order (the prefixMap deduplication is membership in the list). -/
structure ListState where
  objs : List GoStr
  commonPfx : List GoStr

/-- The walk callback of Storage.ListObjects, for a visited entry with the
given key: apply the prefix filter (with subtree pruning), then the
delimiter collapse, then record the file as an object, stopping at maxKeys.
The clauses appear in the order of the Go code. -/
def listObjFn (pfx delim : GoStr) (maxKeys : Int) (key : GoStr) (isDirE : Bool)
    (st : ListState) : ListState × WalkRes :=
  if pfx ≠ [] ∧ ¬ (pfx.isPrefixOf key) then
    if ¬ ((key ++ ['/']).isPrefixOf pfx) then (st, .skipDir) else (st, .next)
  else
    let emit := fun (st : ListState) =>
      if isDirE then (st, .next)
      else
        let st2 : ListState := { st with objs := st.objs ++ [key] }
        if maxKeys > 0 ∧ (st2.objs.length : Int) ≥ maxKeys then (st2, .skipAll)
        else (st2, .next)
    if delim ≠ [] then
      let rem := trimPfx key pfx
      match idxOfSub delim rem with
      | some idx =>
        let cp := pfx ++ rem.take (idx + delim.length)
        let st2 := if cp ∈ st.commonPfx then st
          else { st with commonPfx := st.commonPfx ++ [cp] }
        if isDirE then (st2, .skipDir) else (st2, .next)
      | none => emit st
    else emit st

/-- filepath.Walk over a directory's entries (in list order, which mirrors
lexical order), threading the callback state.  The Bool result signals that
SkipAll aborted the whole walk.  Go's semantics of SkipDir are mirrored
exactly: returned for a directory it skips that directory's contents;
returned for a regular file it skips the remaining entries of the
containing directory. -/
def walkEntries (fn : GoStr → Bool → ListState → ListState × WalkRes) :
    GoStr → List (GoStr × FsNode) → ListState → ListState × Bool
  | _, [], st => (st, false)
  | parentKey, (name, node) :: rest, st =>
    let key := childKey parentKey name
    let r := fn key node.isDir st
    match r.2 with
    | .skipAll => (r.1, true)
    | .skipDir =>
      match node with
      | .dir _ => walkEntries fn parentKey rest r.1
      | .file _ => (r.1, false)
    | .next =>
      match node with
      | .dir children =>
        let rc := walkEntries fn key children r.1
        if rc.2 then (rc.1, true) else walkEntries fn parentKey rest rc.1
      | .file _ => walkEntries fn parentKey rest r.1
termination_by _ entries _ => sizeOf entries
decreasing_by all_goals simp_wf <;> omega

/-- Storage.ListObjects over the contents of an existing bucket directory:
returns the collected object keys and common prefixes. -/
def listObjects (entries : List (GoStr × FsNode)) (pfx delim : GoStr)
    (maxKeys : Int) : List GoStr × List GoStr :=
  let r := walkEntries (listObjFn pfx delim maxKeys) [] entries ⟨[], []⟩
  (r.1.objs, r.1.commonPfx)

/-- All keys of regular files in a tree (the objects actually stored). -/
def allKeys : GoStr → List (GoStr × FsNode) → List GoStr
  | _, [] => []
  | parentKey, (name, node) :: rest =>
    match node with
    | .file _ => childKey parentKey name :: allKeys parentKey rest
    | .dir children =>
      allKeys (childKey parentKey name) children ++ allKeys parentKey rest
termination_by _ entries => sizeOf entries
decreasing_by all_goals simp_wf <;> omega

/-- Claim C4 (refuted by the code): with no delimiter and unlimited
max-keys, ListObjects is claimed to return exactly the stored keys starting
with the prefix.  On a bucket holding files "a.txt" and "b.txt" with prefix
"b", the stored key "b.txt" starts with the prefix, yet the walk returns no
objects: visiting the non-matching regular file "a.txt" returns
filepath.SkipDir, which skips the remaining entries of the containing
directory, dropping the matching "b.txt". -/
theorem listObjects_prune_drops_matching_key :
    ("b".toList).isPrefixOf ("b.txt".toList) = true
    ∧ ("b.txt".toList) ∈ allKeys []
        [(("a.txt".toList), .file []), (("b.txt".toList), .file [])]
    ∧ (listObjects [(("a.txt".toList), .file []), (("b.txt".toList), .file [])]
        ("b".toList) [] 0).1 = [] := by
  refine ⟨rfl, ?_, ?_⟩
  · simp [allKeys, childKey]
  · simp [listObjects, walkEntries, listObjFn, childKey, FsNode.isDir]

/-- Storage.ListBuckets: the names of all top-level directory entries of the
base directory (no name is excluded). -/
def storageListBuckets (base : List (GoStr × FsNode)) : List GoStr :=
  (base.filter (fun e => e.2.isDir)).map (fun e => e.1)

/-- A base directory after a multipart upload was initiated: the reserved
.multipart staging subtree exists next to an ordinary bucket. -/
def baseWithStaging : List (GoStr × FsNode) :=
  [((".multipart".toList), .dir [(("1700-upl".toList), .dir [])]),
   (("b".toList), .dir [])]

/-- Claim C5 counterexample: in a state where base/.multipart exists,
ListBuckets does return ".multipart" in the bucket list — neither
Storage.ListBuckets nor the listBuckets handler filters it out. -/
theorem listBuckets_returns_multipart_counterexample :
    (".multipart".toList) ∈ storageListBuckets baseWithStaging := by
  decide

/-- Claim C5 (amended): ListBuckets enumerates exactly the top-level
directories of the base directory, with no exclusion: every top-level
directory — including one named ".multipart" — appears, and everything
returned is the name of a top-level directory. -/
theorem listBuckets_all_top_dirs (base : List (GoStr × FsNode)) :
    (∀ name cs, (name, FsNode.dir cs) ∈ base → name ∈ storageListBuckets base)
    ∧ (∀ name ∈ storageListBuckets base,
        ∃ nd, (name, nd) ∈ base ∧ nd.isDir = true) := by
  constructor
  · intro name cs h
    unfold storageListBuckets
    exact List.mem_map.mpr ⟨(name, .dir cs), List.mem_filter.mpr ⟨h, rfl⟩, rfl⟩
  · intro name h
    unfold storageListBuckets at h
    obtain ⟨e, he, rfl⟩ := List.mem_map.mp h
    have hf := List.mem_filter.mp he
    exact ⟨e.2, by rw [Prod.mk.eta]; exact hf.1, hf.2⟩

theorem listBuckets_all_top_dirs_witness :
    ("b".toList) ∈ storageListBuckets baseWithStaging :=
  (listBuckets_all_top_dirs baseWithStaging).1 ("b".toList) []
    (List.mem_cons_of_mem _ (List.mem_cons_self _ _))

/-- The single error Storage.CreateBucket can report. -/
inductive BucketErr | alreadyExists
deriving DecidableEq

/-- Storage.CreateBucket: os.Stat on the bucket path succeeds iff an entry
of that name exists (directory or file), in which case the call fails with
"bucket already exists"; otherwise the directory is created.  There is no
check of the bucket name itself. -/
def storageCreateBucket (base : List (GoStr × FsNode)) (bucket : GoStr) :
    Except BucketErr (List (GoStr × FsNode)) :=
  match base.find? (fun e => e.1 = bucket) with
  | some _ => .error .alreadyExists
  | none => .ok (base ++ [(bucket, .dir [])])

/-- Claim C6 counterexample: on a fresh base directory (a reachable state:
storage.New only creates the empty base directory, and the startup sweep
does not create .multipart), create_bucket(".multipart") succeeds — buckets
named ".multipart" are not forbidden by any check. -/
theorem createBucket_multipart_counterexample :
    storageCreateBucket [] (".multipart".toList)
      = .ok [((".multipart".toList), FsNode.dir [])] := rfl

/-- Claim C6 (amended): create_bucket(".multipart") fails exactly when an
entry named ".multipart" already exists on disk (e.g. after a multipart
upload was initiated); there is no name-based rejection, so on a fresh base
directory the call succeeds and the bucket collides with the reserved
staging subtree name. -/
theorem createBucket_multipart_iff (base : List (GoStr × FsNode)) :
    storageCreateBucket base (".multipart".toList) = .error .alreadyExists
      ↔ ∃ e ∈ base, e.1 = (".multipart".toList) := by
  constructor
  · intro h
    cases hf : base.find? (fun e => e.1 = (".multipart".toList)) with
    | none =>
      rw [storageCreateBucket, hf] at h
      exact absurd h (by simp)
    | some e =>
      refine ⟨e, List.mem_of_find?_eq_some hf, ?_⟩
      have := List.find?_some hf
      simpa using this
  · intro ⟨e, he, hname⟩
    cases hf : base.find? (fun x => x.1 = (".multipart".toList)) with
    | none =>
      rw [List.find?_eq_none] at hf
      exact absurd (by simpa using hname) (hf e he)
    | some x =>
      rw [storageCreateBucket, hf]

/-- Errors of os.Remove relevant to DeleteObject: the path does not exist
(swallowed by DeleteObject), the path is a non-empty directory, or an
intermediate path component is not a directory. -/
inductive OsErr | notExist | notEmpty | notDir
deriving DecidableEq

/-- Resolve a path (list of segments) in a tree of entries. -/
def lookupNode : List GoStr → List (GoStr × FsNode) → Option FsNode
  | [], _ => none
  | [name], entries => (entries.find? (fun e => e.1 = name)).map (fun e => e.2)
  | name :: s2 :: rest, entries =>
    match entries.find? (fun e => e.1 = name) with
    | some (_, .dir cs) => lookupNode (s2 :: rest) cs
    | _ => none

/-- os.Remove on a path in a tree: removes a regular file or an empty
directory; fails notExist when the path is missing, notEmpty on a non-empty
directory, notDir when an intermediate component is a regular file.  On
failure the returned tree is (elementwise) the unchanged input. -/
def osRemoveIn : List GoStr → List (GoStr × FsNode) →
    Option OsErr × List (GoStr × FsNode)
  | [], entries => (some .notExist, entries)
  | [name], entries =>
    match entries.find? (fun e => e.1 = name) with
    | none => (some .notExist, entries)
    | some (_, .file _) => (none, entries.eraseP (fun e => e.1 = name))
    | some (_, .dir []) => (none, entries.eraseP (fun e => e.1 = name))
    | some (_, .dir (_ :: _)) => (some .notEmpty, entries)
  | name :: s2 :: rest, entries =>
    match entries.find? (fun e => e.1 = name) with
    | none => (some .notExist, entries)
    | some (_, .file _) => (some .notDir, entries)
    | some (_, .dir cs) =>
      let r := osRemoveIn (s2 :: rest) cs
      (r.1, entries.map (fun e => if e.1 = name then (name, .dir r.2) else e))

/-- The cleanupEmptyDirs loop of storage.go: starting from the object's
parent directory (given as its segment path inside the bucket), remove the
directory while it exists and is empty, moving one level up each time, and
stop at the bucket directory, at a missing or unreadable path, or at a
non-empty directory. -/
def cleanupDirs (bucket : GoStr) :
    List (GoStr × FsNode) → List GoStr → List (GoStr × FsNode)
  | base, [] => base
  | base, s :: ss =>
    match lookupNode (bucket :: s :: ss) base with
    | some (.dir []) =>
      cleanupDirs bucket (osRemoveIn (bucket :: s :: ss) base).2 ((s :: ss).dropLast)
    | _ => base
termination_by _ segs => segs.length
decreasing_by simp [List.length_dropLast]

/-- Storage.DeleteObject for key with segment path segs inside bucket:
os.Remove the object path, swallowing a not-exist error; on any other error
return it without cleanup; otherwise run the empty-parent-directory cleanup
up to the bucket directory and succeed. -/
def storageDeleteObject (base : List (GoStr × FsNode)) (bucket : GoStr)
    (segs : List GoStr) : Option OsErr × List (GoStr × FsNode) :=
  let r := osRemoveIn (bucket :: segs) base
  match r.1 with
  | some .notExist => (none, cleanupDirs bucket r.2 segs.dropLast)
  | some e => (some e, r.2)
  | none => (none, cleanupDirs bucket r.2 segs.dropLast)

/-- The deleteObject handler: any storage error becomes InternalError (500),
success is HTTP 204 No Content. -/
def deleteObjectStatus (base : List (GoStr × FsNode)) (bucket : GoStr)
    (segs : List GoStr) : Nat :=
  match (storageDeleteObject base bucket segs).1 with
  | none => 204
  | some _ => 500

/-- A bucket holding one object under a subdirectory: base/b/a/c.txt. -/
def baseNestedObject : List (GoStr × FsNode) :=
  [(("b".toList), FsNode.dir
    [(("a".toList), FsNode.dir [(("c.txt".toList), FsNode.file [1])])])]

/-- Claim C10 counterexample: for bucket "b" and key "a" — a path at which
no object (regular file) exists, only a non-empty directory — DeleteObject
fails (os.Remove reports a non-empty directory) and the handler replies
HTTP 500, not 204. -/
theorem deleteObject_nonempty_dir_counterexample :
    (∀ c, lookupNode (("b".toList) :: ("a".toList) :: []) baseNestedObject
        ≠ some (.file c))
    ∧ deleteObjectStatus baseNestedObject ("b".toList) [("a".toList)] = 500 := by
  constructor
  · intro c h
    have h2 : lookupNode (("b".toList) :: ("a".toList) :: []) baseNestedObject
        = some (.dir [(("c.txt".toList), FsNode.file [1])]) := rfl
    rw [h2] at h
    simp at h
  · rfl

/-- Claim C10 (amended): DeleteObject succeeds — and the boundary replies
HTTP 204 — whenever os.Remove of the object path succeeds or fails with
not-exist; in particular deleting a missing object is not an error, and the
empty-parent-directory cleanup up to the bucket directory still runs.  (It
can fail, with HTTP 500, when the key's path names a non-empty directory or
passes through a regular file.) -/
theorem deleteObject_missing_ok (base : List (GoStr × FsNode)) (bucket : GoStr)
    (segs : List GoStr)
    (h : (osRemoveIn (bucket :: segs) base).1 = some OsErr.notExist
      ∨ (osRemoveIn (bucket :: segs) base).1 = none) :
    storageDeleteObject base bucket segs
      = (none, cleanupDirs bucket (osRemoveIn (bucket :: segs) base).2 segs.dropLast)
    ∧ deleteObjectStatus base bucket segs = 204 := by
  have hmain : storageDeleteObject base bucket segs
      = (none, cleanupDirs bucket (osRemoveIn (bucket :: segs) base).2 segs.dropLast) := by
    rcases h with h | h
    · simp only [storageDeleteObject, h]
    · simp only [storageDeleteObject, h]
  exact ⟨hmain, by simp only [deleteObjectStatus, hmain]⟩

theorem deleteObject_missing_ok_witness :
    storageDeleteObject [(("b".toList), FsNode.dir [])] ("b".toList) [("x".toList)]
      = (none, cleanupDirs ("b".toList)
          (osRemoveIn (("b".toList) :: [("x".toList)]) [(("b".toList), FsNode.dir [])]).2
          ([("x".toList)]).dropLast)
    ∧ deleteObjectStatus [(("b".toList), FsNode.dir [])] ("b".toList) [("x".toList)] = 204 :=
  deleteObject_missing_ok [(("b".toList), FsNode.dir [])] ("b".toList) [("x".toList)]
    (Or.inl rfl)

end S3dir
